import Mathlib

/-!
Verification development for `scripts/data-pipeline/1_extract_wdpa.py`.

The script is embedded shallowly: CSV rows become a `Row` record of optional
string fields, the component dictionaries become the `Component` record, the
UNESCO registry entries become `Site` records holding exactly the fields the
script reads (`translations.en.name`, `idNumber`, `isoCodes`).  Python
dictionaries with insertion order are modelled as association lists, and code
paths that can raise an exception return `Option` (with `none` for a raised
exception that propagates to the top-level handler of `main`).
-/

namespace WDPA

/-! ### Python string primitives (modelled for the character data the script handles) -/

/-- Tests whether the first list is a prefix of the second, by characters. -/
def listStarts : List Char → List Char → Bool
  | [], _ => true
  | _ :: _, [] => false
  | a :: as, b :: bs => a == b && listStarts as bs

/-- Tests whether `needle` occurs contiguously inside the second list. -/
def listContains (needle : List Char) : List Char → Bool
  | [] => needle.isEmpty
  | c :: rest => listStarts needle (c :: rest) || listContains needle rest

/-- Models the Python substring test `needle in hay` on strings. -/
def pyIn (needle hay : String) : Bool := listContains needle.data hay.data

/-- Models Python `str.lower()`; adequate for the ASCII range the claims use. -/
def pyLower (s : String) : String := ⟨s.data.map Char.toLower⟩

/-- Splits a character list at every separator matched by `p`, keeping empty chunks,
with `cur` the (reversed) chunk accumulated so far. -/
def splitCharsAux (p : Char → Bool) (cur : List Char) : List Char → List (List Char)
  | [] => [cur.reverse]
  | c :: rest => if p c then cur.reverse :: splitCharsAux p [] rest
                 else splitCharsAux p (c :: cur) rest

/-- Models Python `s.split(';')`: empty chunks are kept, `"".split(';') == ['']`. -/
def pySplitSemi (s : String) : List String :=
  (splitCharsAux (fun c => c == ';') [] s.data).map (fun l => String.mk l)

/-- Models Python `s.split()` with no argument: splits on whitespace and drops
empty tokens, so an empty or all-whitespace string yields `[]`. -/
def pySplit (s : String) : List String :=
  ((splitCharsAux Char.isWhitespace [] s.data).map (fun l => String.mk l)).filter
    (fun t => t != "")

/-- Models Python `str.strip()`: removes leading and trailing whitespace. -/
def pyStrip (s : String) : String :=
  ⟨((s.data.dropWhile Char.isWhitespace).reverse.dropWhile Char.isWhitespace).reverse⟩

/-- Accumulates the decimal value of a digit run; `none` on a non-digit. -/
def digitsValAux (acc : Nat) : List Char → Option Nat
  | [] => some acc
  | c :: rest => if c.isDigit then digitsValAux (acc * 10 + (c.toNat - 48)) rest else none

/-- Magnitude part of a decimal numeral: digits with an optional decimal point,
at least one digit required.  The value is kept exactly as a rational. -/
def pyFloatMag (l : List Char) : Option ℚ :=
  match splitCharsAux (fun c => c == '.') [] l with
  | [ip] => if ip.isEmpty then none else (digitsValAux 0 ip).map (fun n => (n : ℚ))
  | [ip, fp] =>
    if ip.isEmpty && fp.isEmpty then none
    else
      match (if ip.isEmpty then some 0 else digitsValAux 0 ip),
            (if fp.isEmpty then some 0 else digitsValAux 0 fp) with
      | some i, some f => some ((i : ℚ) + (f : ℚ) / (10 : ℚ) ^ fp.length)
      | _, _ => none
  | _ => none

/-- Models CPython `float(s)` on plain decimal numerals: optional surrounding
whitespace, optional sign, digits with an optional decimal point.  Exponents,
`inf`/`nan` and underscores are not modelled (no claim exercises them).
`none` models a raised `ValueError`; the value is an exact rational. -/
def pyFloat (s : String) : Option ℚ :=
  match ((s.data.dropWhile Char.isWhitespace).reverse.dropWhile Char.isWhitespace).reverse with
  | '+' :: rest => pyFloatMag rest
  | '-' :: rest => (pyFloatMag rest).map (fun q => -q)
  | rest => pyFloatMag rest

/-! ### Data model -/

/-- One CSV row as seen through `csv.DictReader`: each field of interest is
`none` when the column is absent from the file and `some s` when present with
cell text `s`.  Field names follow the WDPA column names the script reads. -/
structure Row where
  WDPAID : Option String := none
  WDPA_PID : Option String := none
  NAME : Option String := none
  ORIG_NAME : Option String := none
  DESIG_ENG : Option String := none
  IUCN_CAT : Option String := none
  STATUS : Option String := none
  STATUS_YR : Option String := none
  REP_AREA : Option String := none
  ISO3 : Option String := none
  MARINE : Option String := none
deriving DecidableEq, Repr

/-- The component dictionary built per qualifying row, field for field.
`area_km2` holds the exact rational the modelled `float` call produced. -/
structure Component where
  wdpa_id : String
  wdpa_pid : String
  name : String
  name_orig : String
  designation : String
  iucn_category : String
  status : String
  status_year : String
  area_km2 : ℚ
  iso_codes : List String
  marine : Bool
deriving DecidableEq, Repr

/-- Models `float(row.get('REP_AREA', 0) or 0)`: a missing column gives the
integer default `0`, an empty cell is falsy and replaced by `0`, and any other
cell text goes to `float` unchanged (where it may raise, giving `none`). -/
def parseArea : Option String → Option ℚ
  | none => some 0
  | some s => if s = "" then some 0 else pyFloat s

/-- Models the ISO-code list: `[code.strip() for code in row.get('ISO3', '').split(';')]
if row.get('ISO3') else []` — a missing or empty field is falsy and yields `[]`. -/
def isoCodesOf : Option String → List String
  | none => []
  | some s => if s = "" then [] else (pySplitSemi s).map pyStrip

/-- Builds the component dictionary for one row; `none` models the `ValueError`
raised by the `float` call on an invalid non-empty area cell, which aborts the
extraction. -/
def mkComponent (r : Row) : Option Component :=
  (parseArea r.REP_AREA).map (fun a =>
    { wdpa_id := r.WDPAID.getD ""
      wdpa_pid := r.WDPA_PID.getD ""
      name := r.NAME.getD ""
      name_orig := r.ORIG_NAME.getD ""
      designation := r.DESIG_ENG.getD ""
      iucn_category := r.IUCN_CAT.getD ""
      status := r.STATUS.getD ""
      status_year := r.STATUS_YR.getD ""
      area_km2 := a
      iso_codes := isoCodesOf r.ISO3
      marine := r.MARINE.getD "0" != "0" })

/-- The fixed heritage marker substring of the designation filter. -/
def heritageMarker : String := "World Heritage"

/-- Tests the filter `'World Heritage' in row.get('DESIG_ENG', '')`. -/
def passesFilter (r : Row) : Bool := pyIn heritageMarker (r.DESIG_ENG.getD "")

/-- Site groups: a name-keyed association list in key-insertion order, each
value keeping its components in append order — the behaviour of
`defaultdict(list)` under `whs_sites[site_name].append(component)`. -/
abbrev Groups := List (String × List Component)

/-- Appends `c` to the group named `name`, creating the group at the end when
the name is new (insertion-ordered dictionary semantics). -/
def insertGroup (groups : Groups) (name : String) (c : Component) : Groups :=
  match groups with
  | [] => [(name, [c])]
  | (n, cs) :: rest =>
    if n = name then (n, cs ++ [c]) :: rest else (n, cs) :: insertGroup rest name c

/-- The row loop of `extract_whs_components`, threading the accumulated groups. -/
def extractAux (acc : Groups) : List Row → Option Groups
  | [] => some acc
  | r :: rest =>
    if passesFilter r then
      match mkComponent r with
      | none => none
      | some c => extractAux (insertGroup acc c.name c) rest
    else extractAux acc rest

/-- Models `extract_whs_components`: filters rows by the designation marker and
groups the surviving components by their `name` field.  `none` models an
exception propagating out of the row loop (re-raised to `main`). -/
def extractGroups (rows : List Row) : Option Groups := extractAux [] rows

/-! ### Matcher (`create_unesco_mapping`) -/

/-- One canonical registry entry, holding exactly the fields the script reads:
`site['idNumber']`, `site['translations']['en']['name']` (flattened to
`nameEn`), and `site['isoCodes']`. -/
structure Site where
  idNumber : String
  nameEn : String
  isoCodes : List String
deriving DecidableEq, Repr

/-- Strategy 1: exact match, `wdpa_name.lower() == unesco_name.lower()`. -/
def strategy1 (wdpaName : String) (site : Site) : Bool :=
  pyLower wdpaName == pyLower site.nameEn

/-- Strategy 2: substring match in either direction,
`wdpa_lower in unesco_lower or unesco_lower in wdpa_lower`. -/
def strategy2 (wdpaName : String) (site : Site) : Bool :=
  pyIn (pyLower wdpaName) (pyLower site.nameEn) ||
  pyIn (pyLower site.nameEn) (pyLower wdpaName)

/-- Strategy 3: guarded by `components and components[0]['iso_codes']`, then ISO
overlap of the first component with the entity, then the first-word test.
`none` models the `IndexError` from `split()[0]` when a name is empty or all
whitespace at that point (first the group name, then the entity name, in the
evaluation order of the source). -/
def strategy3 (wdpaName : String) (comps : List Component) (site : Site) : Option Bool :=
  match comps with
  | [] => some false
  | c0 :: _ =>
    if c0.iso_codes.isEmpty then some false
    else
      let wdpaIso := c0.iso_codes.map pyLower
      let unescoIso := site.isoCodes.map pyLower
      if wdpaIso.any (fun x => unescoIso.contains x) then
        match (pySplit wdpaName).head? with
        | none => none
        | some w0 =>
          match (pySplit site.nameEn).head? with
          | none => none
          | some u0 =>
            some (pyLower w0 == pyLower u0 ||
                  pyIn (pyLower w0) (pyLower site.nameEn) ||
                  pyIn (pyLower u0) (pyLower wdpaName))
      else some false

/-- The strategy cascade tried against one entity: strategy 1, else strategy 2,
else strategy 3; each strategy `break`s with the same assignment, so per entity
the outcome is their disjunction. -/
def entityMatches (wdpaName : String) (comps : List Component) (site : Site) : Option Bool :=
  if strategy1 wdpaName site then some true
  else if strategy2 wdpaName site then some true
  else strategy3 wdpaName comps site

/-- The inner `for site in unesco_sites` loop with its `break`s: the first
entity in registry order that any strategy accepts, `some none` when the scan
ends unmatched, `none` when a strategy raises. -/
def findFirstMatch (wdpaName : String) (comps : List Component) :
    List Site → Option (Option Site)
  | [] => some none
  | s :: rest =>
    match entityMatches wdpaName comps s with
    | none => none
    | some true => some (some s)
    | some false => findFirstMatch wdpaName comps rest

/-- The outer loop of `create_unesco_mapping`, threading the mapping (an
insertion-ordered association list) and the unmatched list. -/
def mappingAux (sites : List Site) (m : List (String × String)) (u : List String) :
    Groups → Option (List (String × String) × List String)
  | [] => some (m, u)
  | (name, comps) :: rest =>
    match findFirstMatch name comps sites with
    | none => none
    | some (some s) => mappingAux sites (m ++ [(name, s.idNumber)]) u rest
    | some none => mappingAux sites m (u ++ [name]) rest

/-- Models `create_unesco_mapping`: returns the name→idNumber mapping and the
unmatched-name list; `none` models an exception propagating to `main`. -/
def createUnescoMapping (groups : Groups) (sites : List Site) :
    Option (List (String × String) × List String) :=
  mappingAux sites [] [] groups

/-! ### Orchestrator (`main`) -/

/-- Dictionary key lookup on an association list (first matching key wins; on
the insertion-ordered lists built here keys are unique, so this is `d.get(k)` /
`d[k]`). -/
def lookupA {α : Type} : List (String × α) → String → Option α
  | [], _ => none
  | (k, v) :: rest, n => if k = n then some v else lookupA rest n

/-- Dictionary assignment `d[k] = v` on an insertion-ordered association list:
an existing key keeps its position and gets the new value, a new key is
appended at the end. -/
def setAssoc {α : Type} (l : List (String × α)) (k : String) (v : α) : List (String × α) :=
  match l with
  | [] => [(k, v)]
  | (k', v') :: rest => if k' = k then (k, v) :: rest else (k', v') :: setAssoc rest k v

/-- The reorganisation loop of `main` step 4 over the groups, with
`unesco_id = mapping.get(wdpa_name)`, the truthiness test `if unesco_id:`
(false for a missing key and for the empty string), and the
multi-component guard `len(components) > 1`. -/
def componentsByIdAux (m : List (String × String)) (acc : List (String × List Component)) :
    Groups → List (String × List Component)
  | [] => acc
  | (name, comps) :: rest =>
    match lookupA m name with
    | none => componentsByIdAux m acc rest
    | some id =>
      if id = "" then componentsByIdAux m acc rest
      else if 1 < comps.length then componentsByIdAux m (setAssoc acc id comps) rest
      else componentsByIdAux m acc rest

/-- Models the `components_by_id` dictionary built in `main`. -/
def componentsById (groups : Groups) (m : List (String × String)) :
    List (String × List Component) :=
  componentsByIdAux m [] groups

/-- The data of the two output artifacts of one successful run:
`components.json` content and `wdpa-mapping.json` content.  `none` models a
run that aborted before writing (missing input or exception). -/
def pipelineOutputs (rows : List Row) (sites : List Site) :
    Option (List (String × List Component) × List (String × String)) :=
  match extractGroups rows with
  | none => none
  | some groups =>
    match createUnescoMapping groups sites with
    | none => none
    | some (m, _) => some (componentsById groups m, m)

/-- Models `main`'s control flow for the exit code: the CSV existence check
first, then extraction, then the registry load inside the `try` (its
`FileNotFoundError` is caught by the top-level handler), then the matcher;
every caught exception returns `1`, full success returns `0`.  The inputs are
`none` when the corresponding file is missing. -/
def runMain (csvFile : Option (List Row)) (sitesFile : Option (List Site)) : Nat :=
  match csvFile with
  | none => 1
  | some rows =>
    match extractGroups rows with
    | none => 1
    | some groups =>
      match sitesFile with
      | none => 1
      | some sites =>
        match createUnescoMapping groups sites with
        | none => 1
        | some _ => 0

/-! ### Serialization (`json.dump`, modelled)

The exact bytes `json.dump(..., indent=2, ensure_ascii=False)` writes are a
fixed total function of the dumped data; the functions below model that
serialisation (string escaping for quote and backslash, fields in dict order,
numbers through a fixed rational printer, layout compacted).  For the
determinism claim only totality and being a function of the data matter. -/

/-- JSON string escaping for the quote and backslash characters. -/
def jsonEscapeChar (c : Char) : List Char :=
  if c == '"' then ['\\', '"']
  else if c == '\\' then ['\\', '\\']
  else [c]

/-- A JSON string literal. -/
def jsonStr (s : String) : String :=
  "\"" ++ String.mk (s.data.foldr (fun c acc => jsonEscapeChar c ++ acc) []) ++ "\""

/-- A JSON array from already-serialised elements. -/
def jsonList (elems : List String) : String :=
  "[" ++ String.intercalate ", " elems ++ "]"

/-- A JSON object from keys and already-serialised values. -/
def jsonObj (fields : List (String × String)) : String :=
  "\x7b" ++
    String.intercalate ", " (fields.map (fun p => jsonStr p.1 ++ ": " ++ p.2)) ++
    "\x7d"

/-- One component dictionary, fields in the construction order of the source. -/
def jsonOfComponent (c : Component) : String :=
  jsonObj
    [("wdpa_id", jsonStr c.wdpa_id),
     ("wdpa_pid", jsonStr c.wdpa_pid),
     ("name", jsonStr c.name),
     ("name_orig", jsonStr c.name_orig),
     ("designation", jsonStr c.designation),
     ("iucn_category", jsonStr c.iucn_category),
     ("status", jsonStr c.status),
     ("status_year", jsonStr c.status_year),
     ("area_km2", toString c.area_km2),
     ("iso_codes", jsonList (c.iso_codes.map jsonStr)),
     ("marine", if c.marine then "true" else "false")]

/-- The serialised contents of the two output files of a successful run:
`components.json` first, `wdpa-mapping.json` second. -/
def serializeOutputs (rows : List Row) (sites : List Site) : Option (String × String) :=
  (pipelineOutputs rows sites).map (fun p =>
    (jsonObj (p.1.map (fun g => (g.1, jsonList (g.2.map jsonOfComponent)))),
     jsonObj (p.2.map (fun e => (e.1, jsonStr e.2)))))

/-! ### Derived predicates and concrete instances -/

/-- A qualifying concrete row (designation strictly contains the marker). -/
def rowGreatWall : Row :=
  { WDPAID := some "2577"
    NAME := some "Great Wall"
    DESIG_ENG := some "UNESCO World Heritage Site"
    ISO3 := some "CHN" }

/-- A concrete row that does not qualify (marker absent). -/
def rowPlainPark : Row :=
  { WDPAID := some "9"
    NAME := some "Lake Park"
    DESIG_ENG := some "National Park" }

/-- A qualifying concrete row whose area cell is a non-empty invalid numeral. -/
def rowBadArea : Row :=
  { NAME := some "Bad Area Site"
    DESIG_ENG := some "World Heritage Site (natural)"
    REP_AREA := some "abc" }

/-- The component the extractor builds from `rowGreatWall`. -/
def compGreatWall : Component :=
  { wdpa_id := "2577"
    wdpa_pid := ""
    name := "Great Wall"
    name_orig := ""
    designation := "UNESCO World Heritage Site"
    iucn_category := ""
    status := ""
    status_year := ""
    area_km2 := 0
    iso_codes := ["CHN"]
    marine := false }

/-- A registry entity whose name strictly contains "Great Wall". -/
def siteSubstr : Site :=
  { idNumber := "100", nameEn := "Great Wall of China", isoCodes := ["CN"] }

/-- A registry entity whose name equals "Great Wall" (case-insensitively). -/
def siteExact : Site :=
  { idNumber := "200", nameEn := "Great Wall", isoCodes := ["CN"] }

/-- Component `c` is recorded under name `n` in the groups dictionary. -/
def memGroups (g : Groups) (n : String) (c : Component) : Prop :=
  ∃ cs, lookupA g n = some cs ∧ c ∈ cs

/-- The last element of the groups list that the reorganisation loop stores
under key `id` (its name resolves to `id` and it has several components);
later elements of the list shadow earlier ones under dictionary assignment. -/
def lastQual? (m : List (String × String)) (id : String) : Groups → Option (List Component)
  | [] => none
  | (n, cs) :: rest =>
    match lastQual? m id rest with
    | some r => some r
    | none => if lookupA m n = some id ∧ 1 < cs.length then some cs else none

/-- A concrete component for witnesses and counterexamples: a qualifying row's
component with the given display name and ISO codes. -/
def simpleComp (name : String) (iso : List String) : Component :=
  { wdpa_id := "1"
    wdpa_pid := "1_A"
    name := name
    name_orig := name
    designation := "World Heritage Site (natural)"
    iucn_category := "II"
    status := "Inscribed"
    status_year := "1987"
    area_km2 := 0
    iso_codes := iso
    marine := false }

/-! ### Association-list lemmas -/

theorem lookupA_append {α : Type} (l1 l2 : List (String × α)) (n : String) :
    lookupA (l1 ++ l2) n = ((lookupA l1 n).orElse (fun _ => lookupA l2 n)) := by
  induction l1 with
  | nil => simp [lookupA]
  | cons p rest ih =>
    obtain ⟨k, v⟩ := p
    by_cases hk : k = n <;> simp [lookupA, hk, ih]

theorem lookupA_mem {α : Type} {l : List (String × α)} {n : String} {v : α}
    (h : lookupA l n = some v) : (n, v) ∈ l := by
  induction l with
  | nil => simp [lookupA] at h
  | cons p rest ih =>
    obtain ⟨k, w⟩ := p
    by_cases hk : k = n
    · simp [lookupA, hk] at h
      subst hk h
      exact List.mem_cons_self _ _
    · simp [lookupA, hk] at h
      exact List.mem_cons_of_mem _ (ih h)

theorem lookupA_setAssoc {α : Type} (l : List (String × α)) (k n : String) (v : α) :
    lookupA (setAssoc l k v) n = if k = n then some v else lookupA l n := by
  induction l with
  | nil => simp [setAssoc, lookupA]
  | cons p rest ih =>
    obtain ⟨k', v'⟩ := p
    by_cases hk : k' = k
    · subst hk
      by_cases hn : k' = n <;> simp [setAssoc, lookupA, hn]
    · by_cases hn : k' = n
      · subst hn
        have : ¬ k = k' := fun h => hk h.symm
        simp [setAssoc, lookupA, hk, this]
      · simp [setAssoc, lookupA, hk, hn, ih]

theorem lookupA_insertGroup (g : Groups) (name : String) (c : Component) (n : String) :
    lookupA (insertGroup g name c) n =
      if name = n then some ((lookupA g name).getD [] ++ [c]) else lookupA g n := by
  induction g with
  | nil => simp [insertGroup, lookupA]
  | cons p rest ih =>
    obtain ⟨k, cs⟩ := p
    by_cases hk : k = name
    · subst hk
      by_cases hn : k = n <;> simp [insertGroup, lookupA, hn]
    · by_cases hn : k = n
      · subst hn
        have hnn : ¬ name = k := fun h => hk h.symm
        simp [insertGroup, lookupA, hk, hnn]
      · simp [insertGroup, lookupA, hk, hn, ih]

/-! ### Extraction lemmas -/

theorem mkComponent_fields {r : Row} {c : Component} (h : mkComponent r = some c) :
    c.name = r.NAME.getD "" ∧ c.designation = r.DESIG_ENG.getD "" := by
  cases hp : parseArea r.REP_AREA with
  | none => simp [mkComponent, hp] at h
  | some a =>
    simp [mkComponent, hp] at h
    subst h
    exact ⟨rfl, rfl⟩

theorem insertGroup_forall {g : Groups} {P : Component → Prop} {name : String} {c : Component}
    (hg : ∀ p ∈ g, ∀ x ∈ p.2, P x) (hc : P c) :
    ∀ p ∈ insertGroup g name c, ∀ x ∈ p.2, P x := by
  induction g with
  | nil =>
    intro p hp x hx
    simp [insertGroup] at hp
    subst hp
    simp at hx
    subst hx
    exact hc
  | cons q rest ih =>
    obtain ⟨k, cs⟩ := q
    intro p hp x hx
    by_cases hk : k = name
    · rw [insertGroup, if_pos hk] at hp
      rcases List.mem_cons.mp hp with hp | hp
      · subst hp
        rcases List.mem_append.mp hx with hx | hx
        · exact hg (k, cs) (List.mem_cons_self _ _) x hx
        · simp at hx
          subst hx
          exact hc
      · exact hg p (List.mem_cons_of_mem _ hp) x hx
    · rw [insertGroup, if_neg hk] at hp
      rcases List.mem_cons.mp hp with hp | hp
      · subst hp
        exact hg (k, cs) (List.mem_cons_self _ _) x hx
      · exact ih (fun q hq => hg q (List.mem_cons_of_mem _ hq)) p hp x hx

theorem extractAux_marker {rows : List Row} {acc out : Groups}
    (h : extractAux acc rows = some out)
    (hacc : ∀ p ∈ acc, ∀ c ∈ p.2, pyIn heritageMarker c.designation = true) :
    ∀ p ∈ out, ∀ c ∈ p.2, pyIn heritageMarker c.designation = true := by
  induction rows generalizing acc with
  | nil =>
    rw [extractAux] at h
    cases h
    exact hacc
  | cons r rest ih =>
    cases hf : passesFilter r with
    | false =>
      rw [extractAux, hf] at h
      simp at h
      exact ih h hacc
    | true =>
      cases hc : mkComponent r with
      | none =>
        rw [extractAux, hf] at h
        simp [hc] at h
      | some c =>
        rw [extractAux, hf] at h
        simp only [if_true, hc] at h
        refine ih h (insertGroup_forall hacc ?_)
        rw [(mkComponent_fields hc).2]
        exact hf

theorem extractAux_mono {rows : List Row} {acc out : Groups}
    (h : extractAux acc rows = some out) {n : String} {c : Component}
    (hm : memGroups acc n c) : memGroups out n c := by
  induction rows generalizing acc with
  | nil =>
    rw [extractAux] at h
    cases h
    exact hm
  | cons r rest ih =>
    cases hf : passesFilter r with
    | false =>
      rw [extractAux, hf] at h
      simp at h
      exact ih h hm
    | true =>
      cases hc : mkComponent r with
      | none =>
        rw [extractAux, hf] at h
        simp [hc] at h
      | some c2 =>
        rw [extractAux, hf] at h
        simp only [if_true, hc] at h
        refine ih h ?_
        obtain ⟨cs, hl, hcm⟩ := hm
        by_cases hn : c2.name = n
        · refine ⟨(lookupA acc c2.name).getD [] ++ [c2], ?_, ?_⟩
          · rw [lookupA_insertGroup, if_pos hn]
          · rw [hn, hl]
            exact List.mem_append_left _ hcm
        · exact ⟨cs, by rw [lookupA_insertGroup, if_neg hn]; exact hl, hcm⟩

theorem extractAux_adds {rows : List Row} {acc out : Groups}
    (h : extractAux acc rows = some out) {r : Row}
    (hr : r ∈ rows) (hp : passesFilter r = true) :
    ∃ c, mkComponent r = some c ∧ memGroups out c.name c := by
  induction rows generalizing acc with
  | nil => simp at hr
  | cons r0 rest ih =>
    rcases List.mem_cons.mp hr with heq | hmem
    · subst heq
      rw [extractAux, hp] at h
      simp only [if_true] at h
      cases hc : mkComponent r with
      | none => rw [hc] at h; exact absurd h (by simp)
      | some c =>
        rw [hc] at h
        refine ⟨c, rfl, extractAux_mono h ?_⟩
        refine ⟨(lookupA acc c.name).getD [] ++ [c], ?_, List.mem_append_right _ (by simp)⟩
        rw [lookupA_insertGroup, if_pos rfl]
    · cases hf : passesFilter r0 with
      | false =>
        rw [extractAux, hf] at h
        simp at h
        exact ih h hmem
      | true =>
        cases hc : mkComponent r0 with
        | none =>
          rw [extractAux, hf] at h
          simp [hc] at h
        | some c0 =>
          rw [extractAux, hf] at h
          simp only [if_true, hc] at h
          exact ih h hmem

/-! ### Reorganisation lemmas (`components_by_id`) -/

theorem componentsByIdAux_cons_none {m : List (String × String)} {name : String}
    (acc : List (String × List Component)) (comps : List Component) (rest : Groups)
    (hm : lookupA m name = none) :
    componentsByIdAux m acc ((name, comps) :: rest) = componentsByIdAux m acc rest := by
  rw [componentsByIdAux, hm]

theorem componentsByIdAux_cons_skip {m : List (String × String)} {name id' : String}
    (acc : List (String × List Component)) {comps : List Component} (rest : Groups)
    (hm : lookupA m name = some id') (hskip : id' = "" ∨ ¬ 1 < comps.length) :
    componentsByIdAux m acc ((name, comps) :: rest) = componentsByIdAux m acc rest := by
  rw [componentsByIdAux, hm]
  rcases hskip with h0 | hlen
  · simp [h0]
  · by_cases h0 : id' = "" <;> simp [h0, hlen]

theorem componentsByIdAux_cons_set {m : List (String × String)} {name id' : String}
    (acc : List (String × List Component)) {comps : List Component} (rest : Groups)
    (hm : lookupA m name = some id') (h0 : id' ≠ "") (hlen : 1 < comps.length) :
    componentsByIdAux m acc ((name, comps) :: rest) =
      componentsByIdAux m (setAssoc acc id' comps) rest := by
  rw [componentsByIdAux, hm]
  simp [h0, hlen]

theorem lastQual_cons (m : List (String × String)) (id n : String) (cs : List Component)
    (rest : Groups) :
    lastQual? m id ((n, cs) :: rest) =
      match lastQual? m id rest with
      | some r => some r
      | none => if lookupA m n = some id ∧ 1 < cs.length then some cs else none := rfl

theorem componentsByIdAux_src {m : List (String × String)} {l : Groups}
    {acc : List (String × List Component)} {id : String} {cs : List Component}
    (h : lookupA (componentsByIdAux m acc l) id = some cs) :
    lookupA acc id = some cs ∨ ∃ n, (n, cs) ∈ l := by
  induction l generalizing acc with
  | nil =>
    rw [componentsByIdAux] at h
    exact Or.inl h
  | cons p rest ih =>
    obtain ⟨name, comps⟩ := p
    cases hm : lookupA m name with
    | none =>
      rw [componentsByIdAux_cons_none acc comps rest hm] at h
      rcases ih h with h2 | ⟨n, hn⟩
      · exact Or.inl h2
      · exact Or.inr ⟨n, List.mem_cons_of_mem _ hn⟩
    | some id' =>
      by_cases hq : id' ≠ "" ∧ 1 < comps.length
      · rw [componentsByIdAux_cons_set acc rest hm hq.1 hq.2] at h
        rcases ih h with h2 | ⟨n, hn⟩
        · rw [lookupA_setAssoc] at h2
          by_cases hid : id' = id
          · rw [if_pos hid] at h2
            cases h2
            exact Or.inr ⟨name, List.mem_cons_self _ _⟩
          · rw [if_neg hid] at h2
            exact Or.inl h2
        · exact Or.inr ⟨n, List.mem_cons_of_mem _ hn⟩
      · have hskip : id' = "" ∨ ¬ 1 < comps.length := by
          by_cases h0 : id' = ""
          · exact Or.inl h0
          · exact Or.inr (fun hlen => hq ⟨h0, hlen⟩)
        rw [componentsByIdAux_cons_skip acc rest hm hskip] at h
        rcases ih h with h2 | ⟨n, hn⟩
        · exact Or.inl h2
        · exact Or.inr ⟨n, List.mem_cons_of_mem _ hn⟩

theorem componentsByIdAux_len {m : List (String × String)} {l : Groups}
    {acc : List (String × List Component)} {id : String} {cs : List Component}
    (hacc : ∀ id2 cs2, lookupA acc id2 = some cs2 → 1 < cs2.length)
    (h : lookupA (componentsByIdAux m acc l) id = some cs) : 1 < cs.length := by
  induction l generalizing acc with
  | nil =>
    rw [componentsByIdAux] at h
    exact hacc id cs h
  | cons p rest ih =>
    obtain ⟨name, comps⟩ := p
    cases hm : lookupA m name with
    | none =>
      rw [componentsByIdAux_cons_none acc comps rest hm] at h
      exact ih hacc h
    | some id' =>
      by_cases hq : id' ≠ "" ∧ 1 < comps.length
      · rw [componentsByIdAux_cons_set acc rest hm hq.1 hq.2] at h
        refine ih ?_ h
        intro id2 cs2 h2
        rw [lookupA_setAssoc] at h2
        by_cases hid : id' = id2
        · rw [if_pos hid] at h2
          cases h2
          exact hq.2
        · rw [if_neg hid] at h2
          exact hacc id2 cs2 h2
      · have hskip : id' = "" ∨ ¬ 1 < comps.length := by
          by_cases h0 : id' = ""
          · exact Or.inl h0
          · exact Or.inr (fun hlen => hq ⟨h0, hlen⟩)
        rw [componentsByIdAux_cons_skip acc rest hm hskip] at h
        exact ih hacc h

theorem componentsByIdAux_lastQual {m : List (String × String)} {l : Groups}
    {id : String} (hid : id ≠ "") :
    ∀ acc, lookupA (componentsByIdAux m acc l) id =
      match lastQual? m id l with
      | some cs => some cs
      | none => lookupA acc id := by
  induction l with
  | nil =>
    intro acc
    rfl
  | cons p rest ih =>
    obtain ⟨name, comps⟩ := p
    intro acc
    cases hm : lookupA m name with
    | none =>
      have hcond : ¬ ((none : Option String) = some id ∧ 1 < comps.length) := by
        rintro ⟨h1, -⟩
        exact Option.noConfusion h1
      rw [lastQual_cons, hm, componentsByIdAux_cons_none acc comps rest hm, ih acc,
          if_neg hcond]
      cases hl : lastQual? m id rest <;> rfl
    | some id' =>
      by_cases h0 : id' = ""
      · subst h0
        have hcond : ¬ ((some "" : Option String) = some id ∧ 1 < comps.length) := by
          rintro ⟨h1, -⟩
          exact hid (Option.some.inj h1).symm
        rw [lastQual_cons, hm, componentsByIdAux_cons_skip acc rest hm (Or.inl rfl),
            ih acc, if_neg hcond]
        cases hl : lastQual? m id rest <;> rfl
      · by_cases hlen : 1 < comps.length
        · rw [lastQual_cons, hm, componentsByIdAux_cons_set acc rest hm h0 hlen,
              ih (setAssoc acc id' comps)]
          cases hl : lastQual? m id rest with
          | some r => rfl
          | none =>
            by_cases hidq : id' = id
            · subst hidq
              have hcond : (some id' : Option String) = some id' ∧ 1 < comps.length :=
                ⟨rfl, hlen⟩
              rw [if_pos hcond, lookupA_setAssoc, if_pos rfl]
            · have hcond : ¬ ((some id' : Option String) = some id ∧ 1 < comps.length) := by
                rintro ⟨h1, -⟩
                exact hidq (Option.some.inj h1)
              rw [if_neg hcond, lookupA_setAssoc, if_neg hidq]
        · have hcond : ¬ ((some id' : Option String) = some id ∧ 1 < comps.length) :=
            fun h2 => hlen h2.2
          rw [lastQual_cons, hm, componentsByIdAux_cons_skip acc rest hm (Or.inr hlen),
              ih acc, if_neg hcond]
          cases hl : lastQual? m id rest <;> rfl

theorem lastQual_append (m : List (String × String)) (id : String) (l1 l2 : Groups) :
    lastQual? m id (l1 ++ l2) =
      match lastQual? m id l2 with
      | some r => some r
      | none => lastQual? m id l1 := by
  induction l1 with
  | nil =>
    cases hl : lastQual? m id l2 <;> simp [List.nil_append, lastQual?, hl]
  | cons p rest ih =>
    obtain ⟨n, cs⟩ := p
    rw [List.cons_append, lastQual_cons, ih, lastQual_cons]
    cases lastQual? m id l2 <;> cases lastQual? m id rest <;> rfl

theorem lastQual_none {m : List (String × String)} {id : String} {l : Groups}
    (h : ∀ p ∈ l, ¬ (lookupA m p.1 = some id ∧ 1 < p.2.length)) :
    lastQual? m id l = none := by
  induction l with
  | nil => rfl
  | cons p rest ih =>
    obtain ⟨n, cs⟩ := p
    rw [lastQual?, ih (fun q hq => h q (List.mem_cons_of_mem _ hq))]
    exact if_neg (h (n, cs) (List.mem_cons_self _ _))

/-! ### Matcher lemmas (`create_unesco_mapping`) -/

theorem mappingAux_cons_err {sites : List Site} {name : String} {comps : List Component}
    (m : List (String × String)) (u : List String) (rest : Groups)
    (hf : findFirstMatch name comps sites = none) :
    mappingAux sites m u ((name, comps) :: rest) = none := by
  rw [mappingAux, hf]

theorem mappingAux_cons_matched {sites : List Site} {name : String} {comps : List Component}
    {s : Site} (m : List (String × String)) (u : List String) (rest : Groups)
    (hf : findFirstMatch name comps sites = some (some s)) :
    mappingAux sites m u ((name, comps) :: rest) =
      mappingAux sites (m ++ [(name, s.idNumber)]) u rest := by
  rw [mappingAux, hf]

theorem mappingAux_cons_unmatched {sites : List Site} {name : String} {comps : List Component}
    (m : List (String × String)) (u : List String) (rest : Groups)
    (hf : findFirstMatch name comps sites = some none) :
    mappingAux sites m u ((name, comps) :: rest) = mappingAux sites m (u ++ [name]) rest := by
  rw [mappingAux, hf]

theorem nodup_keys_cons {α : Type} {name : String} {v : α} {rest : List (String × α)}
    (h : (((name, v) :: rest).map Prod.fst).Nodup) :
    name ∉ rest.map Prod.fst ∧ (rest.map Prod.fst).Nodup := by
  rw [List.map_cons] at h
  exact ⟨(List.nodup_cons.mp h).1, (List.nodup_cons.mp h).2⟩

theorem mappingAux_keys {sites : List Site} {l : Groups} {m' : List (String × String)}
    {u' : List String} {n id : String} :
    ∀ {m : List (String × String)} {u : List String},
      mappingAux sites m u l = some (m', u') → (n, id) ∈ m' →
      (n, id) ∈ m ∨ n ∈ l.map Prod.fst := by
  induction l with
  | nil =>
    intro m u h hm
    rw [mappingAux] at h
    cases h
    exact Or.inl hm
  | cons p rest ih =>
    obtain ⟨name, comps⟩ := p
    intro m u h hm
    cases hf : findFirstMatch name comps sites with
    | none =>
      rw [mappingAux_cons_err m u rest hf] at h
      exact Option.noConfusion h
    | some o =>
      cases o with
      | some s =>
        rw [mappingAux_cons_matched m u rest hf] at h
        rcases ih h hm with h2 | h2
        · rcases List.mem_append.mp h2 with h3 | h3
          · exact Or.inl h3
          · have h4 : n = name ∧ id = s.idNumber := by simpa using h3
            refine Or.inr ?_
            rw [List.map_cons, h4.1]
            exact List.mem_cons_self _ _
        · refine Or.inr ?_
          rw [List.map_cons]
          exact List.mem_cons_of_mem _ h2
      | none =>
        rw [mappingAux_cons_unmatched m u rest hf] at h
        rcases ih h hm with h2 | h2
        · exact Or.inl h2
        · refine Or.inr ?_
          rw [List.map_cons]
          exact List.mem_cons_of_mem _ h2

theorem mappingAux_preserve {sites : List Site} {l : Groups} {m' : List (String × String)}
    {u' : List String} {n : String} :
    ∀ {m : List (String × String)} {u : List String},
      mappingAux sites m u l = some (m', u') → n ∉ l.map Prod.fst →
      lookupA m' n = lookupA m n ∧ (n ∈ u' ↔ n ∈ u) := by
  induction l with
  | nil =>
    intro m u h _
    rw [mappingAux] at h
    cases h
    exact ⟨rfl, Iff.rfl⟩
  | cons p rest ih =>
    obtain ⟨name, comps⟩ := p
    intro m u h hn
    have hnname : ¬ name = n := by
      intro he
      refine hn ?_
      rw [List.map_cons, he]
      exact List.mem_cons_self _ _
    have hnrest : n ∉ rest.map Prod.fst := by
      intro he
      refine hn ?_
      rw [List.map_cons]
      exact List.mem_cons_of_mem _ he
    cases hf : findFirstMatch name comps sites with
    | none =>
      rw [mappingAux_cons_err m u rest hf] at h
      exact Option.noConfusion h
    | some o =>
      cases o with
      | some s =>
        rw [mappingAux_cons_matched m u rest hf] at h
        obtain ⟨h1, h2⟩ := ih h hnrest
        refine ⟨?_, h2⟩
        rw [h1, lookupA_append]
        have hsing : lookupA [(name, s.idNumber)] n = none := by
          simp [lookupA, hnname]
        rw [hsing]
        cases lookupA m n <;> rfl
      | none =>
        rw [mappingAux_cons_unmatched m u rest hf] at h
        obtain ⟨h1, h2⟩ := ih h hnrest
        refine ⟨h1, ?_⟩
        rw [h2]
        have hne : n ≠ name := fun he => hnname he.symm
        simp [hne]

theorem mappingAux_lookup {sites : List Site} {l : Groups} {m' : List (String × String)}
    {u' : List String} {n : String} {comps : List Component} :
    ∀ {m : List (String × String)} {u : List String},
      mappingAux sites m u l = some (m', u') → (l.map Prod.fst).Nodup →
      (n, comps) ∈ l → lookupA m n = none →
      (∀ s, findFirstMatch n comps sites = some (some s) → lookupA m' n = some s.idNumber) ∧
      (findFirstMatch n comps sites = some none → lookupA m' n = none ∧ n ∈ u') := by
  induction l with
  | nil =>
    intro m u _ _ hmem _
    simp at hmem
  | cons p rest ih =>
    obtain ⟨name, comps0⟩ := p
    intro m u h hnd hmem hnone
    obtain ⟨hname_rest, hnd_rest⟩ := nodup_keys_cons hnd
    rcases List.mem_cons.mp hmem with heq | hmem2
    · injection heq with hn hc
      subst hn
      subst hc
      cases hf : findFirstMatch n comps sites with
      | none =>
        rw [mappingAux_cons_err m u rest hf] at h
        exact Option.noConfusion h
      | some o =>
        cases o with
        | some s =>
          rw [mappingAux_cons_matched m u rest hf] at h
          obtain ⟨h1, -⟩ := mappingAux_preserve h hname_rest
          constructor
          · intro s2 hs2
            have hss : s = s2 := Option.some.inj (Option.some.inj hs2)
            subst hss
            rw [h1, lookupA_append, hnone]
            simp [lookupA]
          · intro hs2
            exact Option.noConfusion (Option.some.inj hs2)
        | none =>
          rw [mappingAux_cons_unmatched m u rest hf] at h
          obtain ⟨h1, h2⟩ := mappingAux_preserve h hname_rest
          constructor
          · intro s2 hs2
            exact Option.noConfusion (Option.some.inj hs2)
          · intro _
            refine ⟨by rw [h1]; exact hnone, ?_⟩
            rw [h2]
            simp
    · have hn_ne : ¬ name = n := by
        intro he
        subst he
        exact hname_rest (List.mem_map.mpr ⟨(name, comps), hmem2, rfl⟩)
      cases hf : findFirstMatch name comps0 sites with
      | none =>
        rw [mappingAux_cons_err m u rest hf] at h
        exact Option.noConfusion h
      | some o =>
        cases o with
        | some s =>
          rw [mappingAux_cons_matched m u rest hf] at h
          refine ih h hnd_rest hmem2 ?_
          rw [lookupA_append, hnone]
          simp [lookupA, hn_ne]
        | none =>
          rw [mappingAux_cons_unmatched m u rest hf] at h
          exact ih h hnd_rest hmem2 hnone

theorem mappingAux_nodup {sites : List Site} {l : Groups} {m' : List (String × String)}
    {u' : List String} :
    ∀ {m : List (String × String)} {u : List String},
      mappingAux sites m u l = some (m', u') →
      (m.map Prod.fst).Nodup → (l.map Prod.fst).Nodup →
      (∀ n ∈ m.map Prod.fst, n ∉ l.map Prod.fst) →
      (m'.map Prod.fst).Nodup := by
  induction l with
  | nil =>
    intro m u h hm _ _
    rw [mappingAux] at h
    cases h
    exact hm
  | cons p rest ih =>
    obtain ⟨name, comps⟩ := p
    intro m u h hm hl hdisj
    obtain ⟨hname_rest, hnd_rest⟩ := nodup_keys_cons hl
    have hmemhead : name ∈ ((name, comps) :: rest).map Prod.fst := by
      rw [List.map_cons]
      exact List.mem_cons_self _ _
    cases hf : findFirstMatch name comps sites with
    | none =>
      rw [mappingAux_cons_err m u rest hf] at h
      exact Option.noConfusion h
    | some o =>
      cases o with
      | some s =>
        rw [mappingAux_cons_matched m u rest hf] at h
        refine ih h ?_ hnd_rest ?_
        · have hnew : name ∉ m.map Prod.fst := fun he => hdisj name he hmemhead
          rw [List.map_append]
          refine List.Nodup.append hm (List.nodup_singleton _) ?_
          intro a ha hb
          have hab : a = name := by simpa using hb
          subst hab
          exact hnew ha
        · intro n2 hn2 hr
          rw [List.map_append] at hn2
          rcases List.mem_append.mp hn2 with h3 | h3
          · refine hdisj n2 h3 ?_
            rw [List.map_cons]
            exact List.mem_cons_of_mem _ hr
          · have hab : n2 = name := by simpa using h3
            subst hab
            exact hname_rest hr
      | none =>
        rw [mappingAux_cons_unmatched m u rest hf] at h
        refine ih h hm hnd_rest ?_
        intro n2 hn2 hr
        refine hdisj n2 hn2 ?_
        rw [List.map_cons]
        exact List.mem_cons_of_mem _ hr

theorem mappingAux_unmatched {sites : List Site} {l : Groups} {m' : List (String × String)}
    {u' : List String} {n : String} :
    ∀ {m : List (String × String)} {u : List String},
      mappingAux sites m u l = some (m', u') → n ∈ u' →
      n ∈ u ∨ ∃ comps, (n, comps) ∈ l ∧ findFirstMatch n comps sites = some none := by
  induction l with
  | nil =>
    intro m u h hu
    rw [mappingAux] at h
    cases h
    exact Or.inl hu
  | cons p rest ih =>
    obtain ⟨name, comps⟩ := p
    intro m u h hu
    cases hf : findFirstMatch name comps sites with
    | none =>
      rw [mappingAux_cons_err m u rest hf] at h
      exact Option.noConfusion h
    | some o =>
      cases o with
      | some s =>
        rw [mappingAux_cons_matched m u rest hf] at h
        rcases ih h hu with h2 | ⟨cs, hcs, hfind⟩
        · exact Or.inl h2
        · exact Or.inr ⟨cs, List.mem_cons_of_mem _ hcs, hfind⟩
      | none =>
        rw [mappingAux_cons_unmatched m u rest hf] at h
        rcases ih h hu with h2 | ⟨cs, hcs, hfind⟩
        · rcases List.mem_append.mp h2 with h3 | h3
          · exact Or.inl h3
          · simp at h3
            subst h3
            exact Or.inr ⟨comps, List.mem_cons_self _ _, hf⟩
        · exact Or.inr ⟨cs, List.mem_cons_of_mem _ hcs, hfind⟩

/-! ### Strategy lemmas -/

theorem pyIn_nil (s : String) : pyIn "" s = true := by
  rw [pyIn]
  cases s.data with
  | nil => rfl
  | cons c rest => rfl

theorem entityMatches_of_12 {n : String} {comps : List Component} {e : Site}
    (h : (strategy1 n e || strategy2 n e) = true) :
    entityMatches n comps e = some true := by
  rw [entityMatches]
  cases h1 : strategy1 n e with
  | true => simp
  | false =>
    have h2 : strategy2 n e = true := by simpa [h1] using h
    simp [h2]

theorem findFirstMatch_skip {n : String} {comps : List Component} {pre rest : List Site}
    (hpre : ∀ e ∈ pre, entityMatches n comps e = some false) :
    findFirstMatch n comps (pre ++ rest) = findFirstMatch n comps rest := by
  induction pre with
  | nil => rfl
  | cons e2 pre2 ih =>
    rw [List.cons_append, findFirstMatch, hpre e2 (List.mem_cons_self _ _)]
    exact ih (fun e3 h3 => hpre e3 (List.mem_cons_of_mem _ h3))

theorem findFirstMatch_cons_true {n : String} {comps : List Component} {e : Site}
    (rest : List Site) (h : entityMatches n comps e = some true) :
    findFirstMatch n comps (e :: rest) = some (some e) := by
  rw [findFirstMatch, h]

/-! ### Claim theorems -/

/-- C5: for every input row of a successful extraction, the row's component
appears in some site group iff the row's designation field contains the
heritage marker as a case-sensitive substring (containment, not equality);
and every component reaching the components-by-id output carries the marker,
so rows without it appear in no output group. -/
theorem designation_filter_governs_membership {rows : List Row} {groups : Groups} {r : Row}
    (hex : extractGroups rows = some groups) (hr : r ∈ rows) :
    ((∃ n c, mkComponent r = some c ∧ memGroups groups n c) ↔
      pyIn heritageMarker (r.DESIG_ENG.getD "") = true) ∧
    (∀ m id cs c, lookupA (componentsById groups m) id = some cs → c ∈ cs →
      pyIn heritageMarker c.designation = true) := by
  have hmk := extractAux_marker hex (fun p hp => absurd hp (List.not_mem_nil p))
  constructor
  · constructor
    · rintro ⟨n, c, hc, cs, hl, hcm⟩
      have hmarker := hmk (n, cs) (lookupA_mem hl) c hcm
      rw [(mkComponent_fields hc).2] at hmarker
      exact hmarker
    · intro hp
      obtain ⟨c, hc, hm⟩ := extractAux_adds hex hr hp
      exact ⟨c.name, c, hc, hm⟩
  · intro m id cs c hl hcm
    rcases componentsByIdAux_src hl with h2 | ⟨n, hn⟩
    · exact Option.noConfusion h2
    · exact hmk (n, cs) hn c hcm

/-- C5 witness: a concrete run with one qualifying row (designation a strict
superstring of the marker) and one non-qualifying row. -/
theorem designation_filter_governs_membership_witness :
    ((∃ n c, mkComponent rowGreatWall = some c ∧
        memGroups [("Great Wall", [compGreatWall])] n c) ↔
      pyIn heritageMarker (rowGreatWall.DESIG_ENG.getD "") = true) ∧
    ((∃ n c, mkComponent rowPlainPark = some c ∧
        memGroups [("Great Wall", [compGreatWall])] n c) ↔
      pyIn heritageMarker (rowPlainPark.DESIG_ENG.getD "") = true) :=
  ⟨(@designation_filter_governs_membership [rowGreatWall, rowPlainPark]
      [("Great Wall", [compGreatWall])] rowGreatWall rfl (List.mem_cons_self _ _)).1,
   (@designation_filter_governs_membership [rowGreatWall, rowPlainPark]
      [("Great Wall", [compGreatWall])] rowPlainPark rfl
      (List.mem_cons_of_mem _ (List.mem_cons_self _ _))).1⟩

/-- C4: every value stored in the components-by-id output has more than one
component; a single-component group never appears there, matched or not. -/
theorem single_component_groups_excluded {groups : Groups} {m : List (String × String)}
    {id : String} {cs : List Component}
    (h : lookupA (componentsById groups m) id = some cs) : 1 < cs.length :=
  componentsByIdAux_len (fun _ _ h2 => Option.noConfusion h2) h

/-- C4 witness: a two-component group stored under its matched identifier. -/
theorem single_component_groups_excluded_witness :
    1 < [simpleComp "A" [], simpleComp "A" []].length :=
  @single_component_groups_excluded [("A", [simpleComp "A" [], simpleComp "A" []])]
    [("A", "7")] "7" [simpleComp "A" [], simpleComp "A" []] rfl

/-- C2 counterexample: a row passing the designation filter whose area cell is
the non-empty invalid string "abc" makes the component construction raise a
`ValueError` (modelled as `none`), aborting the extraction — so construction
is not exception-free on the area field. -/
theorem area_field_can_raise :
    passesFilter rowBadArea = true ∧
    mkComponent rowBadArea = none ∧
    extractGroups [rowBadArea] = none :=
  ⟨rfl, rfl, rfl⟩

/-- C2 amended: a missing or empty area cell is replaced by the default 0
before parsing and construction succeeds with area 0.0; only a non-empty
invalid cell reaches `float` and raises. -/
theorem area_defaults_on_missing_or_empty (r : Row)
    (h : r.REP_AREA = none ∨ r.REP_AREA = some "") :
    ∃ c, mkComponent r = some c ∧ c.area_km2 = 0 := by
  have hp : parseArea r.REP_AREA = some 0 := by
    rcases h with h | h <;> rw [h] <;> rfl
  refine ⟨{ wdpa_id := r.WDPAID.getD ""
            wdpa_pid := r.WDPA_PID.getD ""
            name := r.NAME.getD ""
            name_orig := r.ORIG_NAME.getD ""
            designation := r.DESIG_ENG.getD ""
            iucn_category := r.IUCN_CAT.getD ""
            status := r.STATUS.getD ""
            status_year := r.STATUS_YR.getD ""
            area_km2 := 0
            iso_codes := isoCodesOf r.ISO3
            marine := r.MARINE.getD "0" != "0" }, ?_, rfl⟩
  rw [mkComponent, hp]
  rfl

/-- C2 amended witness: the qualifying row with no area column yields a
component with area 0. -/
theorem area_defaults_on_missing_or_empty_witness :
    ∃ c, mkComponent rowGreatWall = some c ∧ c.area_km2 = 0 :=
  area_defaults_on_missing_or_empty rowGreatWall (Or.inl rfl)

/-- C6: for a group whose components all have empty ISO-code lists, strategy 3
never fires against any entity (the per-entity outcome is exactly the
strategy-1/strategy-2 disjunction); and whenever strategy 3 fires, the group
has at least one component with a non-empty ISO-code list. -/
theorem iso_heuristic_needs_iso_codes (name : String) (comps : List Component) :
    ((∀ c ∈ comps, c.iso_codes = []) → ∀ site,
      strategy3 name comps site = some false ∧
      entityMatches name comps site = some (strategy1 name site || strategy2 name site)) ∧
    (∀ site, strategy3 name comps site = some true →
      ∃ c, c ∈ comps ∧ c.iso_codes ≠ []) := by
  constructor
  · intro hall site
    have h3 : strategy3 name comps site = some false := by
      cases comps with
      | nil => rfl
      | cons c0 rest =>
        have h0 : c0.iso_codes = [] := hall c0 (List.mem_cons_self _ _)
        rw [strategy3, h0]
        rfl
    refine ⟨h3, ?_⟩
    rw [entityMatches]
    cases h1 : strategy1 name site with
    | true => simp
    | false =>
      cases h2 : strategy2 name site with
      | true => simp [h2]
      | false => simp [h2, h3]
  · intro site h3
    cases comps with
    | nil =>
      rw [strategy3] at h3
      exact Bool.noConfusion (Option.some.inj h3)
    | cons c0 rest =>
      by_cases h0 : c0.iso_codes.isEmpty
      · rw [strategy3, if_pos h0] at h3
        exact Bool.noConfusion (Option.some.inj h3)
      · refine ⟨c0, List.mem_cons_self _ _, ?_⟩
        intro hnil
        exact h0 (by rw [hnil]; rfl)

/-- C6 witness: a group with one empty-ISO component applied to a concrete
entity, and the necessary-condition direction at a firing instance. -/
theorem iso_heuristic_needs_iso_codes_witness :
    strategy3 "Great Wall" [simpleComp "Great Wall" []] siteExact = some false ∧
    entityMatches "Great Wall" [simpleComp "Great Wall" []] siteExact =
      some (strategy1 "Great Wall" siteExact || strategy2 "Great Wall" siteExact) := by
  have h := (iso_heuristic_needs_iso_codes "Great Wall" [simpleComp "Great Wall" []]).1
    (by intro c hc; rw [List.mem_singleton.mp hc]; rfl) siteExact
  exact h

/-- C1 counterexample: "Great Wall" equals entity "200" exactly
(case-insensitively) and is merely a substring of entity "100", yet with "100"
earlier in registry order the mapping assigns "100" — the exact match does not
win regardless of registry positions. -/
theorem exact_match_priority_cex :
    strategy1 "Great Wall" siteExact = true ∧
    strategy1 "Great Wall" siteSubstr = false ∧
    strategy2 "Great Wall" siteSubstr = true ∧
    createUnescoMapping [("Great Wall", [simpleComp "Great Wall" ["CHN"]])]
        [siteSubstr, siteExact] = some ([("Great Wall", "100")], []) ∧
    siteSubstr.idNumber ≠ siteExact.idNumber :=
  ⟨rfl, rfl, rfl, rfl, by decide⟩

/-- C1 amended: the scan is entity-major — a group is assigned the identifier
of the first entity in registry order accepted by any heuristic tier, so the
exact-match entity wins over a substring-match entity only when no earlier
entity matches; an earlier entity accepted by tier 1 or tier 2 wins even when
a later entity is an exact match. -/
theorem first_matching_entity_wins {groups : Groups} {sites : List Site}
    {m : List (String × String)} {u : List String} {n : String}
    {comps : List Component} {pre post : List Site} {e : Site}
    (h : createUnescoMapping groups sites = some (m, u))
    (hnd : (groups.map Prod.fst).Nodup)
    (hmem : (n, comps) ∈ groups)
    (hsites : sites = pre ++ e :: post)
    (hmatch : (strategy1 n e || strategy2 n e) = true)
    (hpre : ∀ e2 ∈ pre, entityMatches n comps e2 = some false) :
    lookupA m n = some e.idNumber := by
  have hfind : findFirstMatch n comps sites = some (some e) := by
    rw [hsites, findFirstMatch_skip hpre,
        findFirstMatch_cons_true post (entityMatches_of_12 hmatch)]
  exact (mappingAux_lookup h hnd hmem rfl).1 e hfind

/-- C1 amended witness: with the substring entity first, the group maps to its
identifier even though the exact-match entity follows. -/
theorem first_matching_entity_wins_witness :
    lookupA [("Great Wall", "100")] "Great Wall" = some siteSubstr.idNumber :=
  @first_matching_entity_wins [("Great Wall", [simpleComp "Great Wall" ["CHN"]])]
    [siteSubstr, siteExact] [("Great Wall", "100")] [] "Great Wall"
    [simpleComp "Great Wall" ["CHN"]] [] [siteExact] siteSubstr
    rfl (by decide) (List.mem_cons_self _ _) rfl rfl
    (fun e2 h2 => absurd h2 (List.not_mem_nil e2))

/-- C7: the returned mapping has at most one entry per group name, every
mapping key is a group-collection key (the converse need not hold), and each
entry's value is the identifier of the first entity accepted for that group —
the first successful heuristic wins and nothing later overwrites it. -/
theorem mapping_invariants {groups : Groups} {sites : List Site}
    {m : List (String × String)} {u : List String}
    (h : createUnescoMapping groups sites = some (m, u))
    (hnd : (groups.map Prod.fst).Nodup) :
    (m.map Prod.fst).Nodup ∧
    (∀ n id, (n, id) ∈ m → n ∈ groups.map Prod.fst) ∧
    (∀ n comps, (n, comps) ∈ groups →
      ∀ s, findFirstMatch n comps sites = some (some s) →
        lookupA m n = some s.idNumber) := by
  refine ⟨?_, ?_, ?_⟩
  · exact mappingAux_nodup h List.nodup_nil hnd (fun n hn => absurd hn (List.not_mem_nil n))
  · intro n id hm
    rcases mappingAux_keys h hm with h2 | h2
    · exact absurd h2 (List.not_mem_nil _)
    · exact h2
  · intro n comps hmem s hf
    exact (mappingAux_lookup h hnd hmem rfl).1 s hf

/-- C7 witness: the concrete mapping of the Great Wall run has unique keys,
whose only key is a group key, with the first accepted entity's identifier. -/
theorem mapping_invariants_witness :
    (([("Great Wall", "100")] : List (String × String)).map Prod.fst).Nodup :=
  (@mapping_invariants [("Great Wall", [simpleComp "Great Wall" ["CHN"]])]
    [siteSubstr, siteExact] [("Great Wall", "100")] [] rfl (by decide)).1

/-- C10: the empty group name passes the substring heuristic against every
entity (the empty string is contained in every name), so with a non-empty
registry it is mapped to the first entity's identifier and never reported
unmatched. -/
theorem empty_name_always_matches {groups : Groups} {s0 : Site} {rest : List Site}
    {m : List (String × String)} {u : List String} {comps : List Component}
    (h : createUnescoMapping groups (s0 :: rest) = some (m, u))
    (hnd : (groups.map Prod.fst).Nodup)
    (hmem : ("", comps) ∈ groups) :
    (∀ site, strategy2 "" site = true) ∧
    lookupA m "" = some s0.idNumber ∧ "" ∉ u := by
  have hs2 : ∀ site, strategy2 "" site = true := by
    intro site
    rw [strategy2]
    have h1 : pyIn (pyLower "") (pyLower site.nameEn) = true := pyIn_nil _
    rw [h1]
    rfl
  have hem : ∀ comps2 : List Component, entityMatches "" comps2 s0 = some true := by
    intro comps2
    refine entityMatches_of_12 ?_
    rw [hs2 s0]
    exact Bool.or_true _
  refine ⟨hs2, ?_, ?_⟩
  · exact (mappingAux_lookup h hnd hmem rfl).1 s0
      (findFirstMatch_cons_true rest (hem comps))
  · intro hu
    rcases mappingAux_unmatched h hu with h2 | ⟨comps2, -, hf2⟩
    · exact absurd h2 (List.not_mem_nil _)
    · rw [findFirstMatch_cons_true rest (hem comps2)] at hf2
      exact Option.noConfusion (Option.some.inj hf2)

/-- C10 witness: an empty-named group mapped to the first registry entity. -/
theorem empty_name_always_matches_witness :
    lookupA [("", "100")] "" = some siteSubstr.idNumber ∧ "" ∉ ([] : List String) :=
  ⟨(@empty_name_always_matches [("", [simpleComp "" []])] siteSubstr [siteExact]
      [("", "100")] [] [simpleComp "" []] rfl (by decide)
      (List.mem_cons_self _ _)).2.1,
   (@empty_name_always_matches [("", [simpleComp "" []])] siteSubstr [siteExact]
      [("", "100")] [] [simpleComp "" []] rfl (by decide)
      (List.mem_cons_self _ _)).2.2⟩

/-- C3: when two distinct multi-component groups both resolve to the same
identifier (and no later group also stores under it), dictionary reassignment
keeps only the later group's components under that identifier in the
components-by-id output; the earlier group's components are silently dropped. -/
theorem later_group_overwrites_earlier {m : List (String × String)} {pre mid post : Groups}
    {n1 n2 id : String} {c1 c2 : List Component}
    (hne : n1 ≠ n2)
    (h1 : lookupA m n1 = some id) (h2 : lookupA m n2 = some id)
    (hid : id ≠ "") (hlen1 : 1 < c1.length) (hlen2 : 1 < c2.length)
    (hpost : ∀ p ∈ post, ¬ (lookupA m p.1 = some id ∧ 1 < p.2.length)) :
    lookupA (componentsById (pre ++ (n1, c1) :: mid ++ (n2, c2) :: post) m) id =
      some c2 := by
  rw [componentsById, componentsByIdAux_lastQual hid]
  have hq : lastQual? m id (pre ++ (n1, c1) :: mid ++ (n2, c2) :: post) = some c2 := by
    rw [lastQual_append, lastQual_cons, lastQual_append, lastQual_cons,
        lastQual_none hpost, if_pos ⟨h2, hlen2⟩]
  rw [hq]

/-- C3 witness: groups "A" and "B" both map to "9"; the output stores "B"'s
two components under "9". -/
theorem later_group_overwrites_earlier_witness :
    lookupA (componentsById
        [("A", [simpleComp "A" [], simpleComp "A" []]),
         ("B", [simpleComp "B" [], simpleComp "B" []])]
        [("A", "9"), ("B", "9")]) "9" =
      some [simpleComp "B" [], simpleComp "B" []] :=
  @later_group_overwrites_earlier [("A", "9"), ("B", "9")] [] [] [] "A" "B" "9"
    [simpleComp "A" [], simpleComp "A" []] [simpleComp "B" [], simpleComp "B" []]
    (by decide) rfl rfl (by decide) (by decide) (by decide)
    (fun p hp => absurd hp (List.not_mem_nil p))

/-- C8: the pipeline is deterministic — it is a pure function of the input row
list and the registry list, so two runs on identical inputs produce equal
output data and byte-identical serialised JSON contents for both artifacts. -/
theorem pipeline_deterministic (rows rows2 : List Row) (sites sites2 : List Site)
    (hr : rows = rows2) (hs : sites = sites2) :
    pipelineOutputs rows sites = pipelineOutputs rows2 sites2 ∧
    serializeOutputs rows sites = serializeOutputs rows2 sites2 := by
  subst hr
  subst hs
  exact ⟨rfl, rfl⟩

/-- C8 witness: two runs on the same concrete one-row input agree. -/
theorem pipeline_deterministic_witness :
    serializeOutputs [rowGreatWall] [siteSubstr, siteExact] =
      serializeOutputs [rowGreatWall] [siteSubstr, siteExact] :=
  (pipeline_deterministic [rowGreatWall] [rowGreatWall]
    [siteSubstr, siteExact] [siteSubstr, siteExact] rfl rfl).2

/-- C9: the modelled exit code is always 0 or 1; it is 0 exactly when both
input files are present and extraction and matching raise no exception, and it
is 1 whenever either required input file is missing. -/
theorem exit_code_spec (csvFile : Option (List Row)) (sitesFile : Option (List Site)) :
    (runMain csvFile sitesFile = 0 ∨ runMain csvFile sitesFile = 1) ∧
    (runMain csvFile sitesFile = 0 ↔
      ∃ rows sites groups mu,
        csvFile = some rows ∧ sitesFile = some sites ∧
        extractGroups rows = some groups ∧
        createUnescoMapping groups sites = some mu) ∧
    (csvFile = none → runMain csvFile sitesFile = 1) ∧
    (sitesFile = none → runMain csvFile sitesFile = 1) := by
  cases csvFile with
  | none =>
    refine ⟨Or.inr rfl, ?_, fun _ => rfl, fun _ => rfl⟩
    constructor
    · intro hz
      exact absurd hz (by simp [runMain])
    · rintro ⟨rows, sites, groups, mu, hc, -, -, -⟩
      exact Option.noConfusion hc
  | some rows =>
    cases hex : extractGroups rows with
    | none =>
      have hrun : runMain (some rows) sitesFile = 1 := by
        rw [runMain, hex]
      refine ⟨Or.inr hrun, ?_, fun hc => Option.noConfusion hc, fun hs => ?_⟩
      · constructor
        · intro hz
          rw [hrun] at hz
          exact absurd hz (by simp)
        · rintro ⟨rows2, sites, groups, mu, hc, -, hex2, -⟩
          cases Option.some.inj hc
          rw [hex] at hex2
          exact Option.noConfusion hex2
      · exact hrun
    | some groups =>
      cases sitesFile with
      | none =>
        have hrun : runMain (some rows) none = 1 := by
          rw [runMain, hex]
        refine ⟨Or.inr hrun, ?_, fun hc => Option.noConfusion hc, fun _ => hrun⟩
        constructor
        · intro hz
          rw [hrun] at hz
          exact absurd hz (by simp)
        · rintro ⟨rows2, sites, groups2, mu, -, hs, -, -⟩
          exact Option.noConfusion hs
      | some sites =>
        cases hmap : createUnescoMapping groups sites with
        | none =>
          have hrun : runMain (some rows) (some sites) = 1 := by
            simp only [runMain, hex, hmap]
          refine ⟨Or.inr hrun, ?_, fun hc => Option.noConfusion hc,
            fun hs => Option.noConfusion hs⟩
          constructor
          · intro hz
            rw [hrun] at hz
            exact absurd hz (by simp)
          · rintro ⟨rows2, sites2, groups2, mu, hc, hs, hex2, hmap2⟩
            cases Option.some.inj hc
            cases Option.some.inj hs
            rw [hex] at hex2
            cases Option.some.inj hex2
            rw [hmap] at hmap2
            exact Option.noConfusion hmap2
        | some mu =>
          have hrun : runMain (some rows) (some sites) = 0 := by
            simp only [runMain, hex, hmap]
          refine ⟨Or.inl hrun, ?_, fun hc => Option.noConfusion hc,
            fun hs => Option.noConfusion hs⟩
          constructor
          · intro _
            exact ⟨rows, sites, groups, mu, rfl, rfl, hex, hmap⟩
          · intro _
            exact hrun

/-- C9 witness: a run with both inputs present and no exception exits 0, and a
run with the CSV missing exits 1. -/
theorem exit_code_spec_witness :
    runMain (some [rowGreatWall]) (some [siteSubstr, siteExact]) = 0 ∧
    runMain none (some [siteSubstr, siteExact]) = 1 :=
  ⟨((exit_code_spec (some [rowGreatWall]) (some [siteSubstr, siteExact])).2.1).mpr
    ⟨[rowGreatWall], [siteSubstr, siteExact], [("Great Wall", [compGreatWall])],
      ([("Great Wall", "100")], []), rfl, rfl, rfl, rfl⟩,
   (exit_code_spec none (some [siteSubstr, siteExact])).2.2.1 rfl⟩

end WDPA
